import Mathlib

/-!
Shallow embedding of `src/src/applicationsettings.cpp` (Qt Quick Effect Maker
application settings).  Pure Lean translations of the `ApplicationSettings`,
`ImagesModel` and `MenusModel` operations, with the Qt key/value settings
store modelled as explicit state fields and external collaborators
(`QUrl::toLocalFile`, `QImageReader`, path resolution) passed in as function
parameters.  `Option` results model calls whose C++ counterpart performs an
out-of-range `QList` access (undefined behaviour): `none` marks that access.
-/

/-- `ImagesModel::ImagesData`: one entry of a source/background image list. -/
structure ImagesData where
  name : String := ""
  file : String := ""
  width : Int := 0
  height : Int := 0
  canRemove : Bool := false
  deriving DecidableEq

/-- `MenusModel::MenusData`: one (name, file) entry of the recent-projects menu.
Also used for one persisted `recentProjects` array slot, whose two keys read
back as empty strings when absent. -/
structure MenusData where
  name : String := ""
  file : String := ""
  deriving DecidableEq

/-- The mutable state of `ApplicationSettings`: the in-memory model lists plus
the relevant contents of the `QSettings` store.  `recentStore` is the persisted
`recentProjects` array (its length is the stored `size` key; a slot whose keys
were removed is the default `⟨"", ""⟩`).  Scalar settings are `Option`s:
`none` means the key is absent and reads fall back to the hard-coded default. -/
structure AppState where
  sourceImages : List ImagesData := []
  recentProjects : List MenusData := []
  customSourceImages : List String := []
  recentStore : List MenusData := []
  legacyShaders : Option Bool := none
  fontFile : Option String := none
  fontSize : Option Int := none
  deriving DecidableEq

/-- The observable side effects a setter can emit: Qt signal emissions and the
two `EffectManager` calls made by `setUseLegacyShaders`. -/
inductive Event where
  | useLegacyShadersChanged
  | updateBakedShaderVersions
  | doBakeShaders
  | codeFontFileChanged
  | codeFontSizeChanged
  deriving DecidableEq

/-- `defaultSources` from applicationsettings.cpp (4 built-in source images). -/
def defaultSources : List String :=
  [ "defaultnodes/images/qt_logo_green_rgb.png",
    "defaultnodes/images/quit_logo.png",
    "defaultnodes/images/whitecircle.png",
    "defaultnodes/images/blackcircle.png" ]

/-- `DEFAULT_CODE_FONT_FILE` from applicationsettings.cpp. -/
def DEFAULT_CODE_FONT_FILE : String := "fonts/SourceCodePro-Regular.ttf"

/-- `DEFAULT_CODE_FONT_SIZE` from applicationsettings.cpp. -/
def DEFAULT_CODE_FONT_SIZE : Int := 14

/-- `ApplicationSettings::addSourceImage(sourceImage, canRemove)`.
`localFile` models the external `QUrl::toLocalFile` collaborator (stripping a
scheme prefix from a URL-form path); `probe` models `QImageReader`
(`canRead()`/`size()`): `none` when the image cannot be read, in which case the
size stays at the initial `QSize(0, 0)`.  Returns the C++ `bool` result
together with the updated state. -/
def addSourceImage (localFile : String → String) (probe : String → Option (Int × Int))
    (st : AppState) (sourceImage : String) (canRemove : Bool) : Bool × AppState :=
  if sourceImage.isEmpty then (false, st)
  else if st.sourceImages.any (fun source => source.file == sourceImage) then
    -- "Image already exists in the model, so not adding"
    (false, st)
  else
    let sourceImageFile := localFile sourceImage
    let imageSize := (probe sourceImageFile).getD (0, 0)
    let d : ImagesData :=
      { file := sourceImage, width := imageSize.1, height := imageSize.2,
        canRemove := canRemove }
    let st1 := { st with sourceImages := st.sourceImages ++ [d] }
    if canRemove then
      -- Non-default images are added also into settings
      if st1.customSourceImages.contains d.file then (true, st1)
      else (true, { st1 with customSourceImages := st1.customSourceImages ++ [d.file] })
    else (true, st1)

/-- `QList::removeAt(i)` on the persisted custom-source list, with an `Int`
index as computed by `index - defaultSources.size()`.  `QList::removeAt`
requires a valid index; `none` models the out-of-range (undefined) case. -/
def removeAtQ (l : List String) (i : Int) : Option (List String) :=
  if 0 ≤ i ∧ i < (l.length : Int) then some (l.eraseIdx i.toNat) else none

/-- `ApplicationSettings::removeSourceImage(index)`.  `some (false, st)` is the
early out-of-range return; `none` models the undefined `removeAt` on the
persisted custom-source list when `index - defaultSources.size()` is not a
valid position there. -/
def removeSourceImage (st : AppState) (index : Int) : Option (Bool × AppState) :=
  if index < 0 ∨ (st.sourceImages.length : Int) ≤ index then some (false, st)
  else
    let srcs := st.sourceImages.eraseIdx index.toNat
    (removeAtQ st.customSourceImages (index - (defaultSources.length : Int))).map
      fun customSources =>
        (true, { st with sourceImages := srcs, customSourceImages := customSources })

/-- The source-image part of the `ApplicationSettings` constructor: seed the
4 defaults (resolved through the external path-resolution collaborator
`resolve`, `canRemove = false`), then add each persisted custom source with
`canRemove = true`. -/
def initSourceState (resolve : String → String) (localFile : String → String)
    (probe : String → Option (Int × Int)) (storedCustom : List String) : AppState :=
  let st0 : AppState := { customSourceImages := storedCustom }
  let st1 := defaultSources.foldl
    (fun st source => (addSourceImage localFile probe st (resolve source) false).2) st0
  storedCustom.foldl
    (fun st source => (addSourceImage localFile probe st source true).2) st1

/-- The well-formedness filter of the settings read loop in
`updateRecentProjectsModel`: an entry is kept when neither its name nor its
file is empty. -/
def wfEntry (d : MenusData) : Bool := !d.name.isEmpty && !d.file.isEmpty

/-- The settings read loop of `updateRecentProjectsModel`: at most `max_items`
(6) raw array slots are visited (the loop breaks at `i >= max_items`), and
malformed slots (empty name or file) are skipped. -/
def readRecent (store : List MenusData) : List MenusData :=
  (store.take 6).filter wfEntry

/-- Index of the LAST entry of `l` whose `file` equals `file`, or `none`.
This is what the read loop's repeated
`projectListIndex = recentProjectsList.size() - 1` assignment computes. -/
def lastMatchIdx (file : String) : List MenusData → Option Nat
  | [] => none
  | d :: rest =>
    match lastMatchIdx file rest with
    | some i => some (i + 1)
    | none => if d.file == file then some 0 else none

/-- `QList::move(i, 0)`: move the element at position `i` to the front. -/
def moveToFront (l : List MenusData) (i : Nat) : List MenusData :=
  match l[i]? with
  | none => l
  | some x => x :: l.eraseIdx i

/-- `if (recentProjectsList.size() > max_items) recentProjectsList.removeLast();`
with `max_items = 6`. -/
def recentTrunc (lst : List MenusData) : List MenusData :=
  if 6 < lst.length then lst.dropLast else lst

/-- Lines 248–272 of `updateRecentProjectsModel`: given the filtered list read
from settings, prepend the new entry (when absent), or move it to the front
(when found at a positive index), then drop the last entry when the list
exceeds `max_items` (6). -/
def recentAfterUpdate (read : List MenusData) (projectName projectFile : String) :
    List MenusData :=
  recentTrunc
    (match lastMatchIdx projectFile read with
     | none => { name := projectName, file := projectFile } :: read
     | some i => if 0 < i then moveToFront read i else read)

/-- The early-return test of `updateRecentProjectsModel`: `projectFile` is
non-empty and already the file of the first entry of the given list. -/
def recentTopIs (lst : List MenusData) (projectFile : String) : Bool :=
  !projectFile.isEmpty &&
    (match lst with
     | [] => false
     | d :: _ => d.file == projectFile)

/-- `ApplicationSettings::updateRecentProjectsModel(projectName, projectFile)`.
Early return when `projectFile` is non-empty and already the first in-memory
entry; otherwise re-read (and filter) the persisted list, and when both
arguments are non-empty prepend/move the entry, truncate to 6, and write the
result back to the store.  The in-memory model list is always replaced by the
computed list. -/
def updateRecentProjectsModel (st : AppState) (projectName projectFile : String) :
    AppState :=
  if recentTopIs st.recentProjects projectFile then
    -- First element of the recent projects list is already the selected project
    st
  else if !projectName.isEmpty && !projectFile.isEmpty then
    { st with
      recentStore := recentAfterUpdate (readRecent st.recentStore) projectName projectFile,
      recentProjects := recentAfterUpdate (readRecent st.recentStore) projectName projectFile }
  else
    { st with recentProjects := readRecent st.recentStore }

/-- Fold `updateRecentProjectsModel` over a sequence of
`(projectName, projectFile)` calls, starting from the empty state. -/
def runUpdates (calls : List (String × String)) : AppState :=
  calls.foldl (fun st c => updateRecentProjectsModel st c.1 c.2) {}

/-- Index of the FIRST persisted entry whose `file` equals `file`, or `none`:
the scan order of `removeRecentProjectsModel`. -/
def firstMatchIdx (file : String) : List MenusData → Option Nat
  | [] => none
  | d :: rest =>
    if d.file == file then some 0 else (firstMatchIdx file rest).map (· + 1)

/-- `ApplicationSettings::removeRecentProjectsModel(projectFile)`: scan the
persisted array in index order; at the first slot whose file matches, remove
that slot's two keys (the slot reads back as `⟨"", ""⟩`; the array size is
unchanged) and call `removeAt` on the in-memory list at the same index, then
break.  `none` models the undefined in-memory `removeAt` when that index is
not valid for the (possibly shorter) in-memory list. -/
def removeRecentProjectsModel (st : AppState) (projectFile : String) :
    Option AppState :=
  match firstMatchIdx projectFile st.recentStore with
  | none => some st
  | some i =>
    if i < st.recentProjects.length then
      some { st with recentStore := st.recentStore.set i { name := "", file := "" },
                     recentProjects := st.recentProjects.eraseIdx i }
    else none

/-- The state of one `ImagesModel`: its list and `m_currentIndex`. -/
structure ImagesModelState where
  modelList : List ImagesData := []
  currentIndex : Int := 0
  deriving DecidableEq

/-- `QList::at(i)` with an `Int` index: `none` models the out-of-range
(undefined) access. -/
def atQ (l : List ImagesData) (i : Int) : Option ImagesData :=
  if i < 0 then none else l[i.toNat]?

/-- `ImagesModel::setImageIndex(index)`: no-op (and no signal) when the index
is unchanged; the `Bool` reports whether `currentImageFileChanged` was
emitted. -/
def setImageIndex (m : ImagesModelState) (index : Int) : ImagesModelState × Bool :=
  if m.currentIndex == index then (m, false)
  else ({ m with currentIndex := index }, true)

/-- `ImagesModel::currentImageFile()`: guarded only by
`m_modelList.size() > m_currentIndex`; inside the guard the C++ calls
`m_modelList.at(m_currentIndex)`, which for a negative index is an
out-of-range access (`none`). -/
def currentImageFile (m : ImagesModelState) : Option String :=
  if m.currentIndex < (m.modelList.length : Int) then
    (atQ m.modelList m.currentIndex).map ImagesData.file
  else some ""

/-- `ApplicationSettings::useLegacyShaders()`: stored value, default `false`. -/
def useLegacyShaders (st : AppState) : Bool :=
  st.legacyShaders.getD false

/-- `ApplicationSettings::setUseLegacyShaders(legacyShaders)`: no-op when the
value is unchanged; otherwise write through, emit the change signal, and call
`updateBakedShaderVersions` then `doBakeShaders` on the effect manager. -/
def setUseLegacyShaders (st : AppState) (legacyShaders : Bool) :
    AppState × List Event :=
  if useLegacyShaders st == legacyShaders then (st, [])
  else ({ st with legacyShaders := some legacyShaders },
        [Event.useLegacyShadersChanged, Event.updateBakedShaderVersions,
         Event.doBakeShaders])

/-- `ApplicationSettings::codeFontFile()`: stored value, default
`DEFAULT_CODE_FONT_FILE`. -/
def codeFontFile (st : AppState) : String :=
  st.fontFile.getD DEFAULT_CODE_FONT_FILE

/-- `ApplicationSettings::codeFontSize()`: stored value, default
`DEFAULT_CODE_FONT_SIZE`. -/
def codeFontSize (st : AppState) : Int :=
  st.fontSize.getD DEFAULT_CODE_FONT_SIZE

/-- `ApplicationSettings::setCodeFontFile(font)`: no-op when unchanged. -/
def setCodeFontFile (st : AppState) (font : String) : AppState × List Event :=
  if codeFontFile st == font then (st, [])
  else ({ st with fontFile := some font }, [Event.codeFontFileChanged])

/-- `ApplicationSettings::setCodeFontSize(size)`: no-op when unchanged. -/
def setCodeFontSize (st : AppState) (size : Int) : AppState × List Event :=
  if codeFontSize st == size then (st, [])
  else ({ st with fontSize := some size }, [Event.codeFontSizeChanged])

/-- `ApplicationSettings::resetCodeFont()`: restore both code-font settings to
their defaults through the ordinary setters. -/
def resetCodeFont (st : AppState) : AppState × List Event :=
  let r1 := setCodeFontFile st DEFAULT_CODE_FONT_FILE
  let r2 := setCodeFontSize r1.1 DEFAULT_CODE_FONT_SIZE
  (r2.1, r1.2 ++ r2.2)

/-- The inductive invariant of the recent-projects machinery when started from
the empty state: the in-memory list mirrors the store, the store holds at most
6 entries, every entry is well formed, and no two entries share a file path. -/
def RecentInv (st : AppState) : Prop :=
  st.recentProjects = st.recentStore ∧
  st.recentStore.length ≤ 6 ∧
  (∀ d ∈ st.recentStore, wfEntry d = true) ∧
  (st.recentStore.map MenusData.file).Nodup

theorem isEmpty_false_of_ne (s : String) (h : s ≠ "") : s.isEmpty = false := by
  rw [← Bool.not_eq_true]
  exact fun hc => h ((String.isEmpty_iff s).mp hc)

theorem cons_eraseIdx_perm {α : Type} :
    ∀ (l : List α) (i : Nat) (x : α), l[i]? = some x →
      (x :: l.eraseIdx i).Perm l
  | [], i, x, h => by simp at h
  | a :: t, 0, x, h => by
    simp only [List.getElem?_cons_zero, Option.some.injEq] at h
    subst h
    simp [List.eraseIdx]
  | a :: t, i + 1, x, h => by
    simp only [List.getElem?_cons_succ] at h
    have ih := cons_eraseIdx_perm t i x h
    exact (List.Perm.swap a x (t.eraseIdx i)).trans (ih.cons a)

theorem moveToFront_perm (l : List MenusData) (i : Nat) :
    (moveToFront l i).Perm l := by
  unfold moveToFront
  cases h : l[i]? with
  | none => exact List.Perm.refl l
  | some x => exact cons_eraseIdx_perm l i x h

theorem moveToFront_head (l : List MenusData) (i : Nat) (x : MenusData)
    (h : l[i]? = some x) : (moveToFront l i).head? = some x := by
  unfold moveToFront
  rw [h]
  rfl

theorem lastMatchIdx_some_get (f : String) :
    ∀ (l : List MenusData) (i : Nat), lastMatchIdx f l = some i →
      ∃ d, l[i]? = some d ∧ d.file = f
  | [], i, h => by simp [lastMatchIdx] at h
  | d :: rest, i, h => by
    unfold lastMatchIdx at h
    cases hr : lastMatchIdx f rest with
    | some j =>
      rw [hr] at h
      simp only [Option.some.injEq] at h
      subst h
      obtain ⟨e, he, hef⟩ := lastMatchIdx_some_get f rest j hr
      exact ⟨e, by simpa using he, hef⟩
    | none =>
      rw [hr] at h
      by_cases hdf : d.file == f
      · rw [if_pos hdf] at h
        simp only [Option.some.injEq] at h
        subst h
        exact ⟨d, by simp, by simpa using hdf⟩
      · rw [if_neg hdf] at h
        exact absurd h (by simp)

theorem lastMatchIdx_none_iff (f : String) :
    ∀ l : List MenusData, lastMatchIdx f l = none ↔ ∀ d ∈ l, d.file ≠ f
  | [] => by simp [lastMatchIdx]
  | d :: rest => by
    unfold lastMatchIdx
    cases h : lastMatchIdx f rest with
    | some i =>
      constructor
      · intro h'
        exact Option.noConfusion h'
      · intro hall
        exfalso
        obtain ⟨e, he, hef⟩ := lastMatchIdx_some_get f rest i h
        exact hall e (List.mem_cons_of_mem d (List.getElem?_mem he)) hef
    | none =>
      have ih := (lastMatchIdx_none_iff f rest).mp h
      constructor
      · intro hif e he
        by_cases hdf : d.file == f
        · rw [if_pos hdf] at hif
          exact absurd hif (by simp)
        · rcases List.mem_cons.mp he with rfl | hm
          · exact fun hc => hdf (by simp [hc])
          · exact ih e hm
      · intro hall
        rw [if_neg]
        simp only [beq_iff_eq]
        exact hall d (List.mem_cons_self d rest)

theorem dropLast_head (l : List MenusData) (h : 1 < l.length) :
    l.dropLast.head? = l.head? := by
  match l, h with
  | a :: b :: t, _ => simp [List.dropLast]

theorem recentTrunc_head (lst : List MenusData) :
    (recentTrunc lst).head? = lst.head? := by
  unfold recentTrunc
  split
  · exact dropLast_head lst (by omega)
  · rfl

theorem recentTrunc_length (lst : List MenusData) (h : lst.length ≤ 7) :
    (recentTrunc lst).length ≤ 6 := by
  unfold recentTrunc
  split
  · rw [List.length_dropLast]; omega
  · omega

theorem recentTrunc_mem (lst : List MenusData) (d : MenusData)
    (h : d ∈ recentTrunc lst) : d ∈ lst := by
  unfold recentTrunc at h
  split at h
  · exact (List.dropLast_sublist lst).subset h
  · exact h

theorem recentTrunc_nodup (lst : List MenusData)
    (h : (lst.map MenusData.file).Nodup) :
    ((recentTrunc lst).map MenusData.file).Nodup := by
  unfold recentTrunc
  split
  · exact h.sublist ((List.dropLast_sublist lst).map MenusData.file)
  · exact h

theorem recentAfterUpdate_head (read : List MenusData) (n f : String) :
    (recentAfterUpdate read n f).head?.map MenusData.file = some f := by
  unfold recentAfterUpdate
  rw [recentTrunc_head]
  cases h : lastMatchIdx f read with
  | none => rfl
  | some i =>
    obtain ⟨d, hd, hdf⟩ := lastMatchIdx_some_get f read i h
    show Option.map MenusData.file (if 0 < i then moveToFront read i else read).head? =
      some f
    by_cases hi : 0 < i
    · rw [if_pos hi, moveToFront_head read i d hd]
      simp [hdf]
    · have hi0 : i = 0 := by omega
      subst hi0
      rw [if_neg hi]
      cases read with
      | nil => simp at hd
      | cons a t =>
        simp only [List.getElem?_cons_zero, Option.some.injEq] at hd
        subst hd
        simp [hdf]

theorem recentAfterUpdate_length (read : List MenusData) (n f : String)
    (h : read.length ≤ 6) : (recentAfterUpdate read n f).length ≤ 6 := by
  unfold recentAfterUpdate
  apply recentTrunc_length
  cases hm : lastMatchIdx f read with
  | none =>
    show ((⟨n, f⟩ : MenusData) :: read).length ≤ 7
    simp only [List.length_cons]
    omega
  | some i =>
    show (if 0 < i then moveToFront read i else read).length ≤ 7
    by_cases hi : 0 < i
    · rw [if_pos hi, (moveToFront_perm read i).length_eq]; omega
    · rw [if_neg hi]; omega

theorem recentAfterUpdate_wf (read : List MenusData) (n f : String)
    (hn : n ≠ "") (hf : f ≠ "") (h : ∀ d ∈ read, wfEntry d = true) :
    ∀ d ∈ recentAfterUpdate read n f, wfEntry d = true := by
  unfold recentAfterUpdate
  cases hm : lastMatchIdx f read with
  | none =>
    intro d hd
    have hd' := recentTrunc_mem _ _ hd
    rcases List.mem_cons.mp hd' with rfl | hmem
    · unfold wfEntry
      simp [isEmpty_false_of_ne n hn, isEmpty_false_of_ne f hf]
    · exact h d hmem
  | some i =>
    show ∀ d ∈ recentTrunc (if 0 < i then moveToFront read i else read), wfEntry d = true
    by_cases hi : 0 < i
    · rw [if_pos hi]
      intro d hd
      exact h d ((moveToFront_perm read i).mem_iff.mp (recentTrunc_mem _ _ hd))
    · rw [if_neg hi]
      intro d hd
      exact h d (recentTrunc_mem _ _ hd)

theorem recentAfterUpdate_nodup (read : List MenusData) (n f : String)
    (h : (read.map MenusData.file).Nodup) :
    ((recentAfterUpdate read n f).map MenusData.file).Nodup := by
  unfold recentAfterUpdate
  apply recentTrunc_nodup
  cases hm : lastMatchIdx f read with
  | none =>
    simp only [List.map_cons]
    refine List.nodup_cons.mpr ⟨?_, h⟩
    intro hmem
    obtain ⟨d, hd, hdf⟩ := List.mem_map.mp hmem
    exact ((lastMatchIdx_none_iff f read).mp hm d hd) hdf
  | some i =>
    show ((if 0 < i then moveToFront read i else read).map MenusData.file).Nodup
    by_cases hi : 0 < i
    · rw [if_pos hi]
      exact (((moveToFront_perm read i).map MenusData.file).nodup_iff).mpr h
    · rw [if_neg hi]
      exact h

theorem recentTopIs_iff (lst : List MenusData) (f : String) :
    recentTopIs lst f = true ↔
      (f ≠ "" ∧ lst.head?.map MenusData.file = some f) := by
  unfold recentTopIs
  cases lst with
  | nil => simp
  | cons d t =>
    constructor
    · intro hb
      obtain ⟨h1, h2⟩ := Bool.and_eq_true _ _ |>.mp hb
      refine ⟨fun hc => ?_, ?_⟩
      · rw [hc] at h1
        exact absurd h1 (by decide)
      · simp only [List.head?_cons, Option.map_some', Option.some.injEq]
        exact eq_of_beq h2
    · rintro ⟨h1, h2⟩
      rw [Bool.and_eq_true]
      refine ⟨by simp [isEmpty_false_of_ne f h1], ?_⟩
      simp only [List.head?_cons, Option.map_some', Option.some.injEq] at h2
      exact beq_of_eq h2

theorem update_of_top (st : AppState) (n f : String)
    (h : recentTopIs st.recentProjects f = true) :
    updateRecentProjectsModel st n f = st := by
  unfold updateRecentProjectsModel
  rw [if_pos h]

theorem update_head (st : AppState) (n f : String) (hn : n ≠ "") (hf : f ≠ "") :
    (updateRecentProjectsModel st n f).recentProjects.head?.map MenusData.file =
      some f := by
  unfold updateRecentProjectsModel
  by_cases hg : recentTopIs st.recentProjects f = true
  · rw [if_pos hg]
    exact ((recentTopIs_iff _ _).mp hg).2
  · rw [if_neg hg, if_pos (by simp [isEmpty_false_of_ne n hn, isEmpty_false_of_ne f hf])]
    exact recentAfterUpdate_head _ n f

theorem update_ineffective (st : AppState) (n f : String)
    (he : n = "" ∨ f = "")
    (hg : recentTopIs st.recentProjects f = false) :
    updateRecentProjectsModel st n f =
      { st with recentProjects := readRecent st.recentStore } := by
  unfold updateRecentProjectsModel
  rw [if_neg (by simp [hg]), if_neg]
  rcases he with rfl | rfl <;>
    simp [show ("" : String).isEmpty = true from rfl]

theorem recentInv_empty : RecentInv {} :=
  ⟨rfl, by simp, by intro d hd; simp at hd, by simp⟩

theorem readRecent_of_inv (store : List MenusData) (hlen : store.length ≤ 6)
    (hwf : ∀ d ∈ store, wfEntry d = true) : readRecent store = store := by
  unfold readRecent
  rw [List.take_of_length_le hlen]
  exact List.filter_eq_self.mpr hwf

theorem ne_empty_of_effective (n f : String)
    (he : (!n.isEmpty && !f.isEmpty) = true) : n ≠ "" ∧ f ≠ "" := by
  obtain ⟨h1, h2⟩ := Bool.and_eq_true _ _ |>.mp he
  constructor
  · intro hc; rw [hc] at h1; exact absurd h1 (by decide)
  · intro hc; rw [hc] at h2; exact absurd h2 (by decide)

theorem effective_of_ne_empty (n f : String) (hn : n ≠ "") (hf : f ≠ "") :
    (!n.isEmpty && !f.isEmpty) = true := by
  simp [isEmpty_false_of_ne n hn, isEmpty_false_of_ne f hf]

theorem recentInv_update (st : AppState) (n f : String) (h : RecentInv st) :
    RecentInv (updateRecentProjectsModel st n f) := by
  obtain ⟨hsync, hlen, hwf, hnd⟩ := h
  unfold updateRecentProjectsModel
  by_cases hg : recentTopIs st.recentProjects f = true
  · rw [if_pos hg]
    exact ⟨hsync, hlen, hwf, hnd⟩
  · rw [if_neg hg]
    have hread : readRecent st.recentStore = st.recentStore :=
      readRecent_of_inv _ hlen hwf
    by_cases he : (!n.isEmpty && !f.isEmpty) = true
    · rw [if_pos he, hread]
      obtain ⟨hn, hf⟩ := ne_empty_of_effective n f he
      exact ⟨rfl, recentAfterUpdate_length _ n f hlen,
        recentAfterUpdate_wf _ n f hn hf hwf, recentAfterUpdate_nodup _ n f hnd⟩
    · rw [if_neg he]
      exact ⟨hread, hlen, hwf, hnd⟩

theorem recentInv_foldl :
    ∀ (seq : List (String × String)) (st : AppState), RecentInv st →
      RecentInv (seq.foldl (fun s c => updateRecentProjectsModel s c.1 c.2) st)
  | [], _, h => h
  | c :: rest, st, h =>
    recentInv_foldl rest _ (recentInv_update st c.1 c.2 h)

theorem recentInv_runUpdates (seq : List (String × String)) :
    RecentInv (runUpdates seq) :=
  recentInv_foldl seq {} recentInv_empty

theorem runUpdates_append_one (seq : List (String × String)) (n f : String) :
    runUpdates (seq ++ [(n, f)]) =
      updateRecentProjectsModel (runUpdates seq) n f := by
  unfold runUpdates
  rw [List.foldl_append]
  rfl

theorem update_ineffective_inv (st : AppState) (n f : String)
    (hinv : RecentInv st) (he : n = "" ∨ f = "") :
    updateRecentProjectsModel st n f = st := by
  obtain ⟨hsync, hlen, hwf, hnd⟩ := hinv
  by_cases hg : recentTopIs st.recentProjects f = true
  · exact update_of_top st n f hg
  · rw [update_ineffective st n f he (Bool.eq_false_iff.mpr hg),
      readRecent_of_inv _ hlen hwf]
    cases st with
    | mk si rp cs rs ls ff fs =>
      obtain rfl : rp = rs := hsync
      rfl

theorem update_idem (st : AppState) (n f : String) :
    updateRecentProjectsModel (updateRecentProjectsModel st n f) n f =
      updateRecentProjectsModel st n f := by
  by_cases hg : recentTopIs st.recentProjects f = true
  · rw [update_of_top st n f hg, update_of_top st n f hg]
  · by_cases he : (!n.isEmpty && !f.isEmpty) = true
    · obtain ⟨hn, hf⟩ := ne_empty_of_effective n f he
      apply update_of_top
      rw [recentTopIs_iff]
      exact ⟨hf, update_head st n f hn hf⟩
    · have he' : n = "" ∨ f = "" := by
        by_cases h1 : n = ""
        · exact Or.inl h1
        · by_cases h2 : f = ""
          · exact Or.inr h2
          · exact absurd (effective_of_ne_empty n f h1 h2) he
      have hg' : recentTopIs st.recentProjects f = false := Bool.eq_false_iff.mpr hg
      rw [update_ineffective st n f he' hg']
      by_cases hg2 : recentTopIs (readRecent st.recentStore) f = true
      · exact update_of_top _ n f hg2
      · rw [update_ineffective _ n f he' (Bool.eq_false_iff.mpr hg2)]

theorem firstMatchIdx_none (f : String) :
    ∀ l : List MenusData, (∀ d ∈ l, d.file ≠ f) → firstMatchIdx f l = none
  | [], _ => rfl
  | d :: rest, h => by
    unfold firstMatchIdx
    rw [if_neg (by simp only [beq_iff_eq]; exact h d (List.mem_cons_self d rest)),
      firstMatchIdx_none f rest (fun e he => h e (List.mem_cons_of_mem d he))]
    rfl

theorem firstMatchIdx_some (f : String) :
    ∀ (l : List MenusData) (i : Nat) (d : MenusData), l[i]? = some d → d.file = f →
      (∀ j e, j < i → l[j]? = some e → e.file ≠ f) → firstMatchIdx f l = some i
  | [], i, d, hd, _, _ => by simp at hd
  | a :: rest, i, d, hd, hdf, hbefore => by
    unfold firstMatchIdx
    cases i with
    | zero =>
      simp only [List.getElem?_cons_zero, Option.some.injEq] at hd
      subst hd
      rw [if_pos (by simpa using hdf)]
    | succ i' =>
      have ha : a.file ≠ f := hbefore 0 a (Nat.succ_pos i') (by simp)
      rw [if_neg (by simpa using ha),
        firstMatchIdx_some f rest i' d (by simpa using hd) hdf
          (fun j e hj he => hbefore (j + 1) e (Nat.succ_lt_succ hj) (by simpa using he))]
      rfl

theorem setCodeFontSize_fontFile (st : AppState) (z : Int) :
    (setCodeFontSize st z).1.fontFile = st.fontFile := by
  unfold setCodeFontSize
  split <;> rfl

theorem codeFontFile_setCodeFontFile (st : AppState) (fnt : String) :
    codeFontFile (setCodeFontFile st fnt).1 = fnt := by
  unfold setCodeFontFile
  split
  · next h => exact eq_of_beq h
  · rfl

theorem codeFontSize_setCodeFontSize (st : AppState) (z : Int) :
    codeFontSize (setCodeFontSize st z).1 = z := by
  unfold setCodeFontSize
  split
  · next h => exact eq_of_beq h
  · rfl

/-- The start state of the spec's source-image scenario: empty custom sources,
identity path resolution and local-file mapping, and an image probe that can
read nothing. -/
def scenarioBase : AppState := initSourceState id id (fun _ => none) []

/-- The scenario state after `addSourceImage("img.png", true)`. -/
def scenarioAfterAdd : AppState :=
  (addSourceImage id (fun _ => none) scenarioBase "img.png" true).2

/-- C1: starting from an empty recent-projects state, after any sequence of
`updateRecentProjectsModel` calls the in-memory list and the persisted list
both have at most 6 entries and no duplicate file paths; a call with non-empty
name and file puts that file at index 0, a call with an empty name or file
changes nothing, and the scenario (A,/a), (B,/b), (A,/a) ends with the
in-memory order [(A,/a),(B,/b)]. -/
theorem recent_updates_invariant (seq : List (String × String)) (n f : String)
    (hn : n ≠ "") (hf : f ≠ "") (n' f' : String) (he : n' = "" ∨ f' = "") :
    (runUpdates seq).recentProjects.length ≤ 6 ∧
    (runUpdates seq).recentStore.length ≤ 6 ∧
    ((runUpdates seq).recentProjects.map MenusData.file).Nodup ∧
    ((runUpdates seq).recentStore.map MenusData.file).Nodup ∧
    (runUpdates (seq ++ [(n, f)])).recentProjects.head?.map MenusData.file = some f ∧
    runUpdates (seq ++ [(n', f')]) = runUpdates seq ∧
    (runUpdates [("A", "/a"), ("B", "/b"), ("A", "/a")]).recentProjects =
      [⟨"A", "/a"⟩, ⟨"B", "/b"⟩] := by
  obtain ⟨hsync, hlen, hwf, hnd⟩ := recentInv_runUpdates seq
  refine ⟨?_, hlen, ?_, hnd, ?_, ?_, by decide⟩
  · rw [hsync]; exact hlen
  · rw [hsync]; exact hnd
  · rw [runUpdates_append_one]
    exact update_head _ n f hn hf
  · rw [runUpdates_append_one]
    exact update_ineffective_inv _ n' f' (recentInv_runUpdates seq) he

theorem recent_updates_invariant_witness :
    (runUpdates ([("A", "/a")] ++ [("B", "/b")])).recentProjects.head?.map
      MenusData.file = some "/b" :=
  (recent_updates_invariant [("A", "/a")] "B" "/b" (by decide) (by decide) "" ""
    (Or.inl rfl)).2.2.2.2.1

/-- C4: when `file` is non-empty and already the file of the entry at index 0
of the in-memory recent-projects list, `updateRecentProjectsModel` is a no-op
on the whole state; and for every state and arguments the call is idempotent,
so a second identical call changes nothing after the first. -/
theorem updateRecentProjects_idempotent (st : AppState) (n f : String)
    (hf : f ≠ "") (h0 : st.recentProjects.head?.map MenusData.file = some f) :
    updateRecentProjectsModel st n f = st ∧
    ∀ (st' : AppState) (n' f' : String),
      updateRecentProjectsModel (updateRecentProjectsModel st' n' f') n' f' =
        updateRecentProjectsModel st' n' f' :=
  ⟨update_of_top st n f ((recentTopIs_iff _ _).mpr ⟨hf, h0⟩),
   fun st' n' f' => update_idem st' n' f'⟩

theorem updateRecentProjects_idempotent_witness :
    updateRecentProjectsModel { recentProjects := [⟨"A", "/a"⟩] } "B" "/a" =
      { recentProjects := [⟨"A", "/a"⟩] } :=
  (updateRecentProjects_idempotent { recentProjects := [⟨"A", "/a"⟩] } "B" "/a"
    (by decide) (by decide)).1

/-- C5: `removeRecentProjectsModel` scans the persisted entries in index
order; when no entry's file matches, nothing changes; at the first matching
index `i` (valid also for the in-memory list) it blanks the persisted slot
`i` (removing its two keys) and removes the in-memory entry at the same
position, leaving every other slot — including later matches — untouched. -/
theorem removeRecentProject_first_match (st : AppState) (f : String) :
    ((∀ d ∈ st.recentStore, d.file ≠ f) → removeRecentProjectsModel st f = some st) ∧
    (∀ i d, st.recentStore[i]? = some d → d.file = f →
      (∀ j e, j < i → st.recentStore[j]? = some e → e.file ≠ f) →
      i < st.recentProjects.length →
      removeRecentProjectsModel st f =
        some { st with recentStore := st.recentStore.set i { name := "", file := "" },
                       recentProjects := st.recentProjects.eraseIdx i }) := by
  constructor
  · intro h
    unfold removeRecentProjectsModel
    rw [firstMatchIdx_none f _ h]
  · intro i d hd hdf hbefore hmem
    unfold removeRecentProjectsModel
    rw [firstMatchIdx_some f _ i d hd hdf hbefore]
    show (if i < st.recentProjects.length then
        some { st with recentStore := st.recentStore.set i { name := "", file := "" },
                       recentProjects := st.recentProjects.eraseIdx i }
      else none) = _
    rw [if_pos hmem]

theorem removeRecentProject_first_match_witness :
    removeRecentProjectsModel
      { recentProjects := [⟨"A", "/a"⟩], recentStore := [⟨"A", "/a"⟩] } "/a" =
      some { recentProjects := [], recentStore := [⟨"", ""⟩] } :=
  (removeRecentProject_first_match
      { recentProjects := [⟨"A", "/a"⟩], recentStore := [⟨"A", "/a"⟩] } "/a").2
    0 ⟨"A", "/a"⟩ (by decide) (by decide)
    (fun j _ hj _ => absurd hj (Nat.not_lt_zero j)) (by decide)

/-- C10: a call with an empty name or file that does not hit the topmost-entry
early return writes nothing to the store but still replaces the in-memory
recent-projects list with the store contents loaded through the filter that
drops malformed (empty name or file) entries; a concrete state shows such a
call changing the in-memory list while the store is unchanged. -/
theorem updateRecentProjects_ineffective_load (st : AppState) (n f : String)
    (he : n = "" ∨ f = "")
    (hg : ¬(f ≠ "" ∧ st.recentProjects.head?.map MenusData.file = some f)) :
    updateRecentProjectsModel st n f =
      { st with recentProjects := (st.recentStore.take 6).filter wfEntry } ∧
    (updateRecentProjectsModel st n f).recentStore = st.recentStore ∧
    ∃ st' : AppState, updateRecentProjectsModel st' "" "" ≠ st' ∧
      (updateRecentProjectsModel st' "" "").recentStore = st'.recentStore := by
  have hgb : recentTopIs st.recentProjects f = false :=
    Bool.eq_false_iff.mpr (fun hc => hg ((recentTopIs_iff _ _).mp hc))
  have h1 := update_ineffective st n f he hgb
  refine ⟨h1, by rw [h1], ?_⟩
  exact ⟨{ recentProjects := [⟨"A", "/a"⟩] }, by decide, by decide⟩

theorem updateRecentProjects_ineffective_load_witness :
    (updateRecentProjectsModel { recentProjects := [⟨"A", "/a"⟩] } "x" "").recentStore =
      ({ recentProjects := [⟨"A", "/a"⟩] } : AppState).recentStore :=
  (updateRecentProjects_ineffective_load { recentProjects := [⟨"A", "/a"⟩] } "x" ""
    (Or.inr rfl) (fun hc => hc.1 rfl)).2.1

/-- C8: `setUseLegacyShaders` is a no-op (no store write, no signal, no
effect-manager call) when the argument equals the current persisted value;
otherwise it writes the value through, emits the change signal and invokes
`updateBakedShaderVersions` then `doBakeShaders` exactly once each. -/
theorem setUseLegacyShaders_spec (st : AppState) (b : Bool) :
    (useLegacyShaders st = b → setUseLegacyShaders st b = (st, [])) ∧
    (useLegacyShaders st ≠ b →
      useLegacyShaders (setUseLegacyShaders st b).1 = b ∧
      (setUseLegacyShaders st b).1.legacyShaders = some b ∧
      (setUseLegacyShaders st b).2 =
        [Event.useLegacyShadersChanged, Event.updateBakedShaderVersions,
         Event.doBakeShaders]) := by
  constructor
  · intro h
    unfold setUseLegacyShaders
    rw [if_pos (by simp [h])]
  · intro h
    unfold setUseLegacyShaders
    rw [if_neg (by simp [h])]
    exact ⟨rfl, rfl, rfl⟩

theorem setUseLegacyShaders_spec_witness :
    (setUseLegacyShaders {} true).1.legacyShaders = some true ∧
    (setUseLegacyShaders {} true).2 =
      [Event.useLegacyShadersChanged, Event.updateBakedShaderVersions,
       Event.doBakeShaders] :=
  ⟨((setUseLegacyShaders_spec {} true).2 (by decide)).2.1,
   ((setUseLegacyShaders_spec {} true).2 (by decide)).2.2⟩

/-- C9: after `resetCodeFont` the getters return exactly the compiled-in
defaults (the bundled font path and size 14); `resetCodeFont` goes through the
ordinary setters, and each setter is a no-op (no write, no signal) when the
new value equals the current one. -/
theorem resetCodeFont_spec (st : AppState) (fnt : String) (sz : Int) :
    codeFontFile (resetCodeFont st).1 = DEFAULT_CODE_FONT_FILE ∧
    codeFontSize (resetCodeFont st).1 = DEFAULT_CODE_FONT_SIZE ∧
    (resetCodeFont st).1 =
      (setCodeFontSize (setCodeFontFile st DEFAULT_CODE_FONT_FILE).1
        DEFAULT_CODE_FONT_SIZE).1 ∧
    (codeFontFile st = fnt → setCodeFontFile st fnt = (st, [])) ∧
    (codeFontSize st = sz → setCodeFontSize st sz = (st, [])) := by
  refine ⟨?_, ?_, rfl, ?_, ?_⟩
  · show codeFontFile (setCodeFontSize (setCodeFontFile st DEFAULT_CODE_FONT_FILE).1
      DEFAULT_CODE_FONT_SIZE).1 = DEFAULT_CODE_FONT_FILE
    unfold codeFontFile
    rw [setCodeFontSize_fontFile]
    exact codeFontFile_setCodeFontFile st DEFAULT_CODE_FONT_FILE
  · exact codeFontSize_setCodeFontSize _ DEFAULT_CODE_FONT_SIZE
  · intro h
    unfold setCodeFontFile
    rw [if_pos (by simp [h])]
  · intro h
    unfold setCodeFontSize
    rw [if_pos (by simp [h])]

theorem resetCodeFont_spec_witness :
    codeFontFile (resetCodeFont {}).1 = DEFAULT_CODE_FONT_FILE ∧
    setCodeFontFile {} DEFAULT_CODE_FONT_FILE = ({}, []) :=
  ⟨(resetCodeFont_spec {} "" 0).1, (resetCodeFont_spec {} DEFAULT_CODE_FONT_FILE 0).2.2.2.1 rfl⟩

/-- C6 counterexample: reaching a negative selection through
`setImageIndex(-1)` on a non-empty list makes `currentImageFile` perform an
out-of-range `at()` access (modelled `none`) instead of returning the empty
string, so the claim that every out-of-range index — including a negative
one — yields the empty string is false. -/
theorem currentImageFile_negative_counterexample :
    currentImageFile
      ((setImageIndex
        { modelList := [{ name := "img", file := "/img.png" }], currentIndex := 0 }
        (-1)).1) ≠ some "" := by
  decide

/-- C6 (amended): `currentImageFile` returns the file of the entry at the
selected index when `0 ≤ index < size`, and returns the empty string whenever
`index ≥ size`; but a negative index passes the `size() > index` guard and
leads to an out-of-range list access (`none` in the model) rather than the
empty string. -/
theorem currentImageFile_amended (m : ImagesModelState) :
    (∀ d, 0 ≤ m.currentIndex → m.modelList[m.currentIndex.toNat]? = some d →
      currentImageFile m = some d.file) ∧
    ((m.modelList.length : Int) ≤ m.currentIndex → currentImageFile m = some "") ∧
    (m.currentIndex < 0 → currentImageFile m = none) := by
  refine ⟨?_, ?_, ?_⟩
  · intro d h0 hd
    unfold currentImageFile atQ
    have hlt : m.currentIndex.toNat < m.modelList.length := by
      by_contra hge
      rw [List.getElem?_eq_none (Nat.le_of_not_lt hge)] at hd
      exact Option.noConfusion hd
    rw [if_pos (by omega), if_neg (by omega), hd]
    rfl
  · intro h
    unfold currentImageFile
    rw [if_neg (Int.not_lt.mpr h)]
  · intro h
    unfold currentImageFile atQ
    rw [if_pos (by omega), if_pos h]
    rfl

theorem currentImageFile_amended_witness :
    currentImageFile
      { modelList := [{ name := "img", file := "/img.png" }], currentIndex := 0 } =
      some "/img.png" :=
  (currentImageFile_amended _).1 { name := "img", file := "/img.png" }
    (by decide) (by decide)

/-- C3: `addSourceImage` returns `false` when the path is empty or already in
the source list, `removeSourceImage` returns `false` when the index is
negative or at least the list size, and in each such case the state is
returned unchanged (no in-memory or persisted mutation). -/
theorem sourceImage_error_cases (localFile : String → String)
    (probe : String → Option (Int × Int)) (st : AppState) (path : String)
    (canRemove : Bool) (index : Int) :
    (path = "" → addSourceImage localFile probe st path canRemove = (false, st)) ∧
    ((∃ d ∈ st.sourceImages, d.file = path) →
      addSourceImage localFile probe st path canRemove = (false, st)) ∧
    ((index < 0 ∨ (st.sourceImages.length : Int) ≤ index) →
      removeSourceImage st index = some (false, st)) := by
  refine ⟨?_, ?_, ?_⟩
  · intro h
    subst h
    rfl
  · rintro ⟨d, hd, hdf⟩
    unfold addSourceImage
    by_cases hp : path.isEmpty = true
    · rw [if_pos hp]
    · rw [if_neg hp, if_pos]
      exact List.any_eq_true.mpr ⟨d, hd, by simpa using hdf⟩
  · intro h
    unfold removeSourceImage
    rw [if_pos h]

theorem sourceImage_error_cases_witness :
    addSourceImage id (fun _ => none) {} "" false = (false, {}) ∧
    removeSourceImage {} (-1) = some (false, {}) :=
  ⟨(sourceImage_error_cases id (fun _ => none) {} "" false (-1)).1 rfl,
   (sourceImage_error_cases id (fun _ => none) {} "" false (-1)).2.2
     (Or.inl (by decide))⟩

/-- C7: for a non-empty, non-duplicate path, `addSourceImage` probes the
local-file form of the path (the URL scheme stripped by the `localFile`
collaborator); when the probe cannot read the image the appended entry gets
width 0 and height 0 and the call still returns `true`. -/
theorem addSourceImage_probe_failure (localFile : String → String)
    (probe : String → Option (Int × Int)) (st : AppState) (path : String)
    (canRemove : Bool) (hne : path ≠ "")
    (hdup : ∀ d ∈ st.sourceImages, d.file ≠ path)
    (hprobe : probe (localFile path) = none) :
    (addSourceImage localFile probe st path canRemove).1 = true ∧
    (addSourceImage localFile probe st path canRemove).2.sourceImages =
      st.sourceImages ++
        [{ name := "", file := path, width := 0, height := 0,
           canRemove := canRemove }] := by
  have h1 : path.isEmpty = false := isEmpty_false_of_ne path hne
  have h2 : st.sourceImages.any (fun source => source.file == path) = false := by
    rw [← Bool.not_eq_true]
    intro hc
    obtain ⟨d, hd, hdf⟩ := List.any_eq_true.mp hc
    exact hdup d hd (by simpa using hdf)
  unfold addSourceImage
  rw [if_neg (by simp [h1]), if_neg (by simp [h2])]
  simp only [hprobe]
  cases canRemove with
  | false => exact ⟨rfl, rfl⟩
  | true =>
    by_cases hc : st.customSourceImages.contains path = true
    · rw [if_pos hc]
      exact ⟨rfl, rfl⟩
    · rw [if_neg hc]
      exact ⟨rfl, rfl⟩

theorem addSourceImage_probe_failure_witness :
    (addSourceImage id (fun _ => none) {} "p" false).1 = true ∧
    (addSourceImage id (fun _ => none) {} "p" false).2.sourceImages =
      [] ++ [{ name := "", file := "p", width := 0, height := 0,
               canRemove := false }] :=
  addSourceImage_probe_failure id (fun _ => none) {} "p" false (by decide)
    (fun d hd => absurd hd (List.not_mem_nil d)) rfl

/-- C2: `removeSourceImage index` with a valid in-memory index removes the
source-list entry at `index` and the persisted custom-source entry at
position `index - defaultSources.length` (which the caller must keep valid),
and returns `true`; and the concrete scenario — empty custom sources, the 4
defaults, `addSourceImage("img.png", true)` then `removeSourceImage 4` —
behaves exactly as the spec describes. -/
theorem removeSourceImage_spec (st : AppState) (index : Int)
    (h0 : 0 ≤ index) (h1 : index < (st.sourceImages.length : Int))
    (h2 : (defaultSources.length : Int) ≤ index)
    (h3 : index - (defaultSources.length : Int) <
      (st.customSourceImages.length : Int)) :
    removeSourceImage st index =
      some (true,
        { st with
          sourceImages := st.sourceImages.eraseIdx index.toNat,
          customSourceImages := st.customSourceImages.eraseIdx
            (index - (defaultSources.length : Int)).toNat }) ∧
    (addSourceImage id (fun _ => none) scenarioBase "img.png" true).1 = true ∧
    scenarioBase.sourceImages.map ImagesData.file = defaultSources ∧
    scenarioAfterAdd.sourceImages.map ImagesData.file =
      defaultSources ++ ["img.png"] ∧
    scenarioAfterAdd.customSourceImages = ["img.png"] ∧
    removeSourceImage scenarioAfterAdd 4 = some (true, scenarioBase) := by
  refine ⟨?_, by decide, by decide, by decide, by decide, by decide⟩
  unfold removeSourceImage removeAtQ
  rw [if_neg (by omega), if_pos ⟨by omega, by omega⟩]
  rfl

theorem removeSourceImage_spec_witness :
    removeSourceImage scenarioAfterAdd 4 =
      some (true,
        { scenarioAfterAdd with
          sourceImages := scenarioAfterAdd.sourceImages.eraseIdx (4 : Int).toNat,
          customSourceImages := scenarioAfterAdd.customSourceImages.eraseIdx
            ((4 : Int) - (defaultSources.length : Int)).toNat }) :=
  (removeSourceImage_spec scenarioAfterAdd 4 (by decide) (by decide) (by decide)
    (by decide)).1
